import Mathlib

set_option maxRecDepth 40000

/-!
Verification of the `httpgzip` package (a gzip-compressing `http.Handler`
wrapper) against its specification.  The Go source is shallowly embedded:
strings are handled as `List Char` (Go iterates over bytes, but all the
delimiters involved are ASCII, so on valid UTF-8 the byte-level and
char-level computations agree), `http.Header` is an association list from
canonical header names to value lists, and the stateful response writer
`gRW` is a record transformed by explicit state-passing functions.  Panics
and parse failures are `Option`.
-/

/-! ## Go string primitives (on `List Char`) -/

/-- `unicode.IsSpace` (the set `strings.TrimSpace` trims): ASCII space chars
plus the Unicode `White_Space` code points. -/
def goIsSpace (c : Char) : Bool :=
  c = ' ' || c = '\t' || c = '\n' || c = '\r' || c.toNat = 11 || c.toNat = 12
  || c.toNat = 0x85 || c.toNat = 0xA0 || c.toNat = 0x1680
  || (0x2000 ≤ c.toNat && c.toNat ≤ 0x200A)
  || c.toNat = 0x2028 || c.toNat = 0x2029 || c.toNat = 0x202F
  || c.toNat = 0x205F || c.toNat = 0x3000

/-- `strings.TrimSpace`. -/
def goTrimSpace (s : List Char) : List Char :=
  ((s.dropWhile goIsSpace).reverse.dropWhile goIsSpace).reverse

/-- `strings.HasPrefix s pre` (argument order: string, then the prospective
leading segment). -/
def startsWithL : List Char → List Char → Bool
  | _, [] => true
  | [], _ :: _ => false
  | a :: as, b :: bs => a = b && startsWithL as bs

/-- `strings.Contains s sub`. -/
def containsSub : List Char → List Char → Bool
  | [], sub => startsWithL [] sub
  | c :: r, sub => startsWithL (c :: r) sub || containsSub r sub

/-- `strings.TrimPrefix s pre`. -/
def trimPrefixL (s pre : List Char) : List Char :=
  if startsWithL s pre then s.drop pre.length else s

/-- `strings.Split s sep` for a single-character separator (the package only
splits on `","`).  `Split "" sep = [""]`, as in Go. -/
def splitOnChar (sep : Char) : List Char → List (List Char)
  | [] => [[]]
  | c :: r =>
    if c = sep then [] :: splitOnChar sep r
    else
      match splitOnChar sep r with
      | [] => [[c]]
      | g :: gs => (c :: g) :: gs

/-- `strings.SplitN s sep 2` for a single-character separator, returned as
(part before the first separator, the rest if a separator occurred).  Go's
result list always has length 1 or 2 here, never 0. -/
def splitN2 (sep : Char) : List Char → List Char × Option (List Char)
  | [] => ([], none)
  | c :: r =>
    if c = sep then ([], some r)
    else
      match splitN2 sep r with
      | (b, a) => (c :: b, a)

def isDigitC (c : Char) : Bool := '0' ≤ c && c ≤ '9'

def isHexLetter (c : Char) : Bool := ('a' ≤ c && c ≤ 'f') || ('A' ≤ c && c ≤ 'F')

def hexDigitVal (c : Char) : Nat :=
  if isDigitC c then c.toNat - '0'.toNat
  else if 'a' ≤ c && c ≤ 'f' then c.toNat - 'a'.toNat + 10
  else c.toNat - 'A'.toNat + 10

/-! ## `strconv.Atoi`

`Atoi` is `ParseInt(s, 10, 0)`: an optional sign followed by one or more
ASCII decimal digits (no underscores at an explicit base), with 64-bit
signed-integer range; any syntax or range error makes it fail (`none`). -/

def atoi (s : List Char) : Option Int :=
  let neg : Bool := match s with | '-' :: _ => true | _ => false
  let ds : List Char := match s with | '-' :: r => r | '+' :: r => r | _ => s
  if ds = [] || !ds.all isDigitC then none
  else
    let n : Nat := ds.foldl (fun a c => a * 10 + hexDigitVal c) 0
    let v : Int := if neg then -(n : Int) else (n : Int)
    if v < -(2 ^ 63) || (2 ^ 63 - 1 : Int) < v then none else some v

/-! ## `strconv.ParseFloat` (64-bit)

Modelled exactly at the level `allowsGzip` observes it: the accepted syntax
(decimal and hexadecimal mantissas, underscores as in Go literals, signed
`inf`/`infinity`/`nan` specials) follows `strconv`'s `special`, `readFloat`
and `underscoreOK`, and the numeric result is kept as an exact rational
`num/den` instead of a rounded IEEE-754 double.  Rounding a finite decimal
to float64 preserves the sign and zero-ness of the value except when the
magnitude rounds to `0` (at or below `2^-1075`) or to `±Inf` (at or above
`2^1024 - 2^970`); the parser therefore maps the former case to an exact
zero and treats the latter as the documented `ErrRange` failure, so that
`q > 0` computed on the exact value agrees with Go's `q > 0` on the parsed
double whenever `ParseFloat` succeeds.  Go's 19-digit mantissa truncation
only affects sub-ulp rounding and is not modelled. -/

inductive GoFloat where
  | nan
  | inf (neg : Bool)
  | finite (num : Int) (den : Nat)
deriving DecidableEq

/-- `strconv`'s `lower` restricted to the upper-case letters (it maps
`'A'..'Z'` to `'a'..'z'` and is only compared against lower-case letters). -/
def lowerAZ (c : Char) : Char :=
  if 'A' ≤ c && c ≤ 'Z' then Char.ofNat (c.toNat + 32) else c

/-- `strconv.commonPrefixLenIgnoreCase`. -/
def commonPrefixIC : List Char → List Char → Nat
  | c :: r, p :: q => if lowerAZ c = p then 1 + commonPrefixIC r q else 0
  | _, _ => 0

/-- `strconv.special`: leading (possibly signed) `inf`/`infinity`/`nan`.
After a sign Go's `fallthrough` only checks for infinity, so a signed NaN is
rejected, as in the source. -/
def special (s : List Char) : Option (GoFloat × Nat) :=
  match s with
  | [] => none
  | c :: rest =>
    if c = '+' || c = '-' then
      let n := commonPrefixIC rest "infinity".data
      if n = 3 || n = 8 then some (GoFloat.inf (c = '-'), 1 + n) else none
    else if c = 'i' || c = 'I' then
      let n := commonPrefixIC s "infinity".data
      if n = 3 || n = 8 then some (GoFloat.inf false, n) else none
    else if c = 'n' || c = 'N' then
      if commonPrefixIC s "nan".data = 3 then some (GoFloat.nan, 3) else none
    else none

/-- `strconv.underscoreOK`'s scanning loop.  `saw` is the class of the last
character: `'^'` start, `'0'` digit or base prefix, `'_'` underscore, `'!'`
other. -/
def underscoreOKLoop (hexOK : Bool) : Char → List Char → Bool
  | saw, [] => saw ≠ '_'
  | saw, c :: r =>
    if isDigitC c || (hexOK && isHexLetter c) then underscoreOKLoop hexOK '0' r
    else if c = '_' then decide (saw = '0') && underscoreOKLoop hexOK '_' r
    else if saw = '_' then false
    else underscoreOKLoop hexOK '!' r

/-- `strconv.underscoreOK`: underscores only between digits (or between a
base prefix and a digit). -/
def underscoreOK (s : List Char) : Bool :=
  let s1 : List Char := match s with
    | c :: r => if c = '-' || c = '+' then r else c :: r
    | [] => []
  match s1 with
  | '0' :: c :: r =>
    if c = 'b' || c = 'B' || c = 'o' || c = 'O' || c = 'x' || c = 'X' then
      underscoreOKLoop (c = 'x' || c = 'X') '0' r
    else underscoreOKLoop false '^' s1
  | _ => underscoreOKLoop false '^' s1

/-- Accumulator of `readFloat`'s mantissa loop: the exact mantissa value,
the number of digits seen, the digit count at the decimal point (if one was
seen), and the `sawdigits`/underscore flags. -/
structure MantAcc where
  mant : Nat
  nd : Nat
  dotPos : Option Nat
  sawDigit : Bool
  sawUnd : Bool
deriving DecidableEq

/-- `readFloat`'s mantissa loop: digits of the given base, `_`, and at most
one `.`; stops at the first other character (or a second dot). -/
def readMant (hex : Bool) : List Char → MantAcc → MantAcc × List Char
  | [], acc => (acc, [])
  | c :: r, acc =>
    if c = '_' then readMant hex r { acc with sawUnd := true }
    else if c = '.' then
      match acc.dotPos with
      | some _ => (acc, c :: r)
      | none => readMant hex r { acc with dotPos := some acc.nd }
    else if isDigitC c then
      readMant hex r { acc with
        mant := acc.mant * (if hex then 16 else 10) + hexDigitVal c,
        nd := acc.nd + 1, sawDigit := true }
    else if hex && isHexLetter c then
      readMant hex r { acc with
        mant := acc.mant * 16 + hexDigitVal c, nd := acc.nd + 1, sawDigit := true }
    else (acc, c :: r)

/-- `readFloat`'s exponent-digit loop, with Go's `10000` cap on the
accumulated exponent (the cap only matters for values that over- or
underflow anyway). -/
def readExpLoop : List Char → Nat → Bool → Nat × Bool × List Char
  | [], e, u => (e, u, [])
  | c :: r, e, u =>
    if c = '_' then readExpLoop r e true
    else if isDigitC c then
      readExpLoop r (if e < 10000 then e * 10 + hexDigitVal c else e) u
    else (e, u, c :: r)

/-- `strconv.readFloat`, returning the exact value `num/den` of the parsed
number prefix together with the number of characters consumed, or `none`
when Go's `readFloat` reports `ok = false` (no digits, a hex mantissa
without its mandatory `p` exponent, a dangling exponent marker, or invalid
underscore placement). -/
def readGoFloat (s : List Char) : Option (Int × Nat × Nat) :=
  let neg : Bool := match s with | '-' :: _ => true | _ => false
  let s1 : List Char := match s with | '-' :: r => r | '+' :: r => r | _ => s
  let hex : Bool := match s1 with | '0' :: c :: _ => c = 'x' || c = 'X' | _ => false
  let s2 : List Char := if hex then s1.drop 2 else s1
  match readMant hex s2 ⟨0, 0, none, false, false⟩ with
  | (acc, s3) =>
    if !acc.sawDigit then none
    else
      let dp : Int := (acc.dotPos.getD acc.nd : Nat)
      let expRes : Option (Int × Bool × List Char) :=
        match s3 with
        | c :: r =>
          if (if hex then c = 'p' || c = 'P' else c = 'e' || c = 'E') then
            let esign : Int := match r with | '-' :: _ => -1 | _ => 1
            let r1 : List Char := match r with | '+' :: t => t | '-' :: t => t | _ => r
            match r1 with
            | d :: _ =>
              if isDigitC d then
                match readExpLoop r1 0 false with
                | (e, u, r2) => some (esign * (e : Int), u, r2)
              else none
            | [] => none
          else if hex then none else some (0, false, c :: r)
        | [] => if hex then none else some (0, false, [])
      match expRes with
      | none => none
      | some (e, expUnd, srest) =>
        let consumed := s.length - srest.length
        if (acc.sawUnd || expUnd) && !underscoreOK (s.take consumed) then none
        else
          let E : Int :=
            if hex then 4 * (dp - (acc.nd : Int)) + e else dp - (acc.nd : Int) + e
          let base : Nat := if hex then 2 else 10
          let sm : Int := if neg then -(acc.mant : Int) else (acc.mant : Int)
          if 0 ≤ E then some (sm * ((base ^ E.toNat : Nat) : Int), 1, consumed)
          else some (sm, base ^ (-E).toNat, consumed)

/-- Smallest magnitude that rounds to `±Inf` in float64
(half an ulp above the largest finite double). -/
def f64OverflowBound : Nat := 2 ^ 1024 - 2 ^ 970

/-- `strconv.ParseFloat (·) 64`: specials, then the number syntax over the
whole string; an overflowing magnitude is the documented `ErrRange` failure,
and a non-zero magnitude that rounds to zero is returned as exact `0` (see
the section comment). -/
def parseGoFloat (s : List Char) : Option GoFloat :=
  match special s with
  | some (f, n) => if n = s.length then some f else none
  | none =>
    match readGoFloat s with
    | none => none
    | some (num, den, n) =>
      if n ≠ s.length then none
      else if f64OverflowBound * den ≤ num.natAbs then none
      else if num ≠ 0 && 2 ^ 1075 * num.natAbs ≤ den then some (GoFloat.finite 0 1)
      else some (GoFloat.finite num den)

/-- The comparison `q > 0` that `allowsGzip` performs on the parsed value
(`NaN > 0` is false, `+Inf > 0` is true). -/
def gofloatPos : GoFloat → Bool
  | GoFloat.nan => false
  | GoFloat.inf n => !n
  | GoFloat.finite num _ => 0 < num

/-! ## The negotiator: `allowsGzip` (src/httpgzip.go:154-175) -/

/-- The `for _, ss := range strings.Split(hdr, ",")` loop of `allowsGzip`.
Go's `len(parts) == 0` guard is unreachable (`SplitN` never yields an empty
list), so the model only distinguishes "no semicolon" from "semicolon". -/
def allowsGzipLoop : List (List Char) → Bool
  | [] => false
  | ss :: rest =>
    match splitN2 ';' ss with
    | (tok, none) =>
      if goTrimSpace tok = "gzip".data then true else allowsGzipLoop rest
    | (tok, some param) =>
      if goTrimSpace tok ≠ "gzip".data then allowsGzipLoop rest
      else
        let p := goTrimSpace param
        let qv := trimPrefixL p "q=".data
        if qv ≠ p then
          match parseGoFloat qv with
          | some f => gofloatPos f
          | none => false
        else false

/-- `allowsGzip` (src/httpgzip.go:154-175). -/
def allowsGzip (hdr : String) : Bool :=
  if containsSub hdr.data "gzip".data then allowsGzipLoop (splitOnChar ',' hdr.data)
  else false

/-! Spec-side reformulation of the claim: the first comma-separated entry
whose (whitespace-trimmed) token is exactly `"gzip"` decides the outcome and
later entries are never consulted. -/

/-- Spec-side: verdict of a single entry whose token is `"gzip"`: no
parameter accepts; a parameter of the form `q=<number>` whose number parses
accepts iff the parsed value is strictly positive; anything else rejects. -/
def gzipEntryVerdict (ss : List Char) : Bool :=
  match splitN2 ';' ss with
  | (_, none) => true
  | (_, some param) =>
    let p := goTrimSpace param
    if startsWithL p "q=".data then
      match parseGoFloat (p.drop 2) with
      | some f => gofloatPos f
      | none => false
    else false

/-- Spec-side: the first entry whose trimmed token is exactly `"gzip"`. -/
def firstGzipEntry : List (List Char) → Option (List Char)
  | [] => none
  | ss :: rest =>
    if goTrimSpace (splitN2 ';' ss).1 = "gzip".data then some ss
    else firstGzipEntry rest

/-- Spec-side negotiator, phrased as the claim phrases it. -/
def allowsGzipSpec (hdr : String) : Bool :=
  if containsSub hdr.data "gzip".data then
    match firstGzipEntry (splitOnChar ',' hdr.data) with
    | some ss => gzipEntryVerdict ss
    | none => false
  else false

/-! ## `supportedContentType` (src/httpgzip.go:177-193) -/

def supportedContentType (s : String) : Bool :=
  if s = "" then false
  else if s = "image/svg+xml" || s = "font/woff" || s = "font/woff2" then true
  else if startsWithL s.data "text/".data then true
  else if startsWithL s.data "application/".data &&
      (containsSub s.data "json".data || containsSub s.data "javascript".data ||
        containsSub s.data "xml".data) then true
  else false

/-- Spec-side classifier, phrased as the claim phrases it: a `"text/"`
prefix; an `"application/"` prefix with `"json"`, `"javascript"` or `"xml"`
as a substring; or one of the three exact binary-but-compressible types. -/
def supportedContentTypeSpec (s : String) : Bool :=
  startsWithL s.data "text/".data
  || (startsWithL s.data "application/".data &&
      (containsSub s.data "json".data || containsSub s.data "javascript".data ||
        containsSub s.data "xml".data))
  || s = "image/svg+xml" || s = "font/woff" || s = "font/woff2"

/-! ## `http.Header`

An association list from canonical header names to value lists, with
`textproto.MIMEHeader` semantics for `Get`/`Set`/`Add`/`Del`.  The package
only uses canonical-form keys (the `hdr…` constants below), so key
canonicalisation is not modelled. -/

abbrev Header := List (String × List String)

def hGetAll : Header → String → List String
  | [], _ => []
  | (k', vs) :: r, k => if k' = k then vs else hGetAll r k

/-- `Header.Get`: first value of the key, or `""` when absent. -/
def hGet (h : Header) (k : String) : String :=
  match hGetAll h k with
  | [] => ""
  | v :: _ => v

def hDel : Header → String → Header
  | [], _ => []
  | (k', vs) :: r, k => if k' = k then hDel r k else (k', vs) :: hDel r k

/-- `Header.Set`: replace all values of the key by the single value. -/
def hSet (h : Header) (k v : String) : Header := (k, [v]) :: hDel h k

/-- `Header.Add`: append the value to the key's value list. -/
def hAdd (h : Header) (k v : String) : Header :=
  (k, hGetAll h k ++ [v]) :: hDel h k

def compressThreshold : Int := 1000

def hdrAcceptEncoding : String := "Accept-Encoding"
def hdrContentEncoding : String := "Content-Encoding"
def hdrContentType : String := "Content-Type"
def hdrContentLength : String := "Content-Length"
def hdrContentRange : String := "Content-Range"

/-! ## The compression level and the writer pool

`gzip.NewWriterLevel` fails exactly when the level is outside
`[HuffmanOnly, BestCompression] = [-2, 9]`.  `WithLevel`'s panic and the
pool's `New` panic are modelled as `none`. -/

def gzipHuffmanOnly : Int := -2
def gzipBestSpeed : Int := 1
def gzipBestCompression : Int := 9

/-- Whether `gzip.NewWriterLevel(io.Discard, level)` returns an error. -/
def gzipNewWriterLevelErrors (level : Int) : Bool :=
  level < gzipHuffmanOnly || gzipBestCompression < level

/-- `WithLevel` (src/httpgzip.go:32-37): panics (`none`) at setup time iff
`gzip.NewWriterLevel` rejects the level; otherwise returns the option value,
which configures the handler's pool with that level. -/
def WithLevel (level : Int) : Option Int :=
  if gzipNewWriterLevelErrors level then none else some level

/-- The `New` function of the `sync.Pool` built by `newWriterPool`
(src/httpgzip.go:200-212): constructing a writer at request time panics
(`none`) iff the configured level is invalid. -/
def poolNewWriter (level : Int) : Option Nat :=
  if gzipNewWriterLevelErrors level then none else some 0

/-- The writer pool's dynamic state: reusable stream ids plus a supply of
fresh ones.  `sync.Pool.Get` may return either a pooled or a fresh
instance; the model deterministically prefers a pooled one, which callers
cannot distinguish. -/
structure Pool where
  avail : List Nat
  fresh : Nat
deriving DecidableEq

def Pool.get : Pool → Nat × Pool
  | ⟨[], f⟩ => (f, ⟨[], f + 1⟩)
  | ⟨x :: xs, f⟩ => (x, ⟨xs, f⟩)

def Pool.put (p : Pool) (id : Nat) : Pool := ⟨id :: p.avail, p.fresh⟩

/-! ## The compressing response writer `gRW` (src/httpgzip.go:68-146)

The observable interaction with the real `http.ResponseWriter` is recorded
as an event trace: status-line commits, body bytes forwarded raw, bytes
handed to the gzip stream (which may reach the underlying writer as
compressed output at any point from then on), stream flush/finalisation
(both emit compressed bytes), the writer's own header mutations, and
flushes of the underlying writer. -/

inductive Ev where
  /-- `g.w.WriteHeader(code)` -/
  | commit (code : Nat)
  /-- the writer set `Content-Encoding: gzip` -/
  | setCE
  /-- the writer removed `Content-Length` -/
  | delCL
  /-- the writer sniffed and set a `Content-Type` -/
  | sniffCT (ct : String)
  /-- `g.w.Write(b)`: raw body bytes forwarded -/
  | body
  /-- `g.z.Write(b)`: body bytes into the gzip stream -/
  | zbody
  /-- `g.z.Flush()`: compressed bytes pushed to the underlying writer -/
  | zflush
  /-- `g.z.Close()`: stream finalised, trailer written -/
  | zfinal (id : Nat)
  /-- the underlying writer's `Flush()` -/
  | flushUnder
deriving DecidableEq

/-- The state of one request's `gRW`, together with the shared view of the
underlying writer (its header map, whether it implements `http.Flusher`,
its identity `w`), the pool, and the event trace. -/
structure gRW where
  w : Nat
  hdr : Header
  z : Option Nat
  skip : Bool
  wroteHeader : Bool
  isFlusher : Bool
  pool : Pool
  out : List Ev
deriving DecidableEq

/-- `gRW.init` (src/httpgzip.go:76-102). -/
def gRW.init (g : gRW) : gRW :=
  if g.skip || g.z.isSome then g
  else if hGet g.hdr hdrContentRange ≠ "" then { g with skip := true }
  else if hGet g.hdr hdrContentEncoding ≠ "" then { g with skip := true }
  else if hGet g.hdr hdrContentLength ≠ "" &&
      (match atoi (hGet g.hdr hdrContentLength).data with
       | some n => decide (n < compressThreshold)
       | none => false) then { g with skip := true }
  else if hGet g.hdr hdrContentType ≠ "" &&
      !supportedContentType (hGet g.hdr hdrContentType) then { g with skip := true }
  else
    { g with
      z := some g.pool.get.1
      pool := g.pool.get.2
      hdr := hDel (hSet g.hdr hdrContentEncoding "gzip") hdrContentLength
      out := g.out ++ [Ev.setCE, Ev.delCL] }

/-- `gRW.WriteHeader` (src/httpgzip.go:105-112). -/
def gRW.WriteHeader (code : Nat) (g : gRW) : gRW :=
  let g1 : gRW := { g with wroteHeader := true }
  let g2 : gRW :=
    if g1.z = none ∧ code ≠ 204 ∧ code ≠ 304 ∧ code ≠ 206 then g1.init else g1
  { g2 with out := g2.out ++ [Ev.commit code] }

/-- `gRW.Write` (src/httpgzip.go:114-125).  `detect` abstracts
`http.DetectContentType` (the standard content-sniffing rules applied to
the leading bytes of `b`). -/
def gRW.Write (detect : List Nat → String) (b : List Nat) (g : gRW) : gRW :=
  let g1 : gRW :=
    if ¬g.wroteHeader then
      let gs : gRW :=
        if hGet g.hdr hdrContentType = "" then
          { g with
            hdr := hSet g.hdr hdrContentType (detect b)
            out := g.out ++ [Ev.sniffCT (detect b)] }
        else g
      gRW.WriteHeader 200 gs
    else g
  if g1.skip ∨ g1.z = none then { g1 with out := g1.out ++ [Ev.body] }
  else { g1 with out := g1.out ++ [Ev.zbody] }

/-- `gRW.Flush` (src/httpgzip.go:127-134). -/
def gRW.Flush (g : gRW) : gRW :=
  let g1 : gRW := if g.z.isSome then { g with out := g.out ++ [Ev.zflush] } else g
  if g1.isFlusher then { g1 with out := g1.out ++ [Ev.flushUnder] } else g1

/-- `gRW.Close` (src/httpgzip.go:136-146). -/
def gRW.Close (g : gRW) : gRW :=
  match g.z with
  | none => g
  | some id =>
    let g1 : gRW := { g with out := g.out ++ [Ev.zfinal id] }
    let g2 : gRW :=
      if g1.isFlusher then { g1 with out := g1.out ++ [Ev.flushUnder] } else g1
    { g2 with pool := g2.pool.put id, z := none }

/-- Modelled from the spec: the source snapshot's test `Test_gRWUnwrap`
requires `gRW` to provide an `Unwrap` method, but the method's definition
is not among the provided source files; per the spec it "exposes the real
writer so that other middleware/diagnostics layers can recover the original
writer identity". -/
def gRW.Unwrap (g : gRW) : Nat := g.w

/-- The fresh writer the dispatcher builds: `&gRW{w: w, pool: pool}`. -/
def gRW.mk0 (w : Nat) (h : Header) (isF : Bool) (p : Pool) : gRW :=
  { w := w, hdr := h, z := none, skip := false, wroteHeader := false,
    isFlusher := isF, pool := p, out := [] }

/-- The tri-state decision: `some true` = compressing (a stream is held),
`some false` = skipping, `none` = undecided. -/
def gRW.decision (g : gRW) : Option Bool :=
  if g.z.isSome then some true else if g.skip then some false else none

/-- What a wrapped handler can do through the `http.ResponseWriter`
interface: commit a status, write body bytes, flush, and mutate headers. -/
inductive Act where
  | writeHeader (code : Nat)
  | write (b : List Nat)
  | flush
  | setHdr (k v : String)
  | addHdr (k v : String)
  | delHdr (k : String)
deriving DecidableEq

def gRW.step (detect : List Nat → String) (g : gRW) : Act → gRW
  | Act.writeHeader c => gRW.WriteHeader c g
  | Act.write b => gRW.Write detect b g
  | Act.flush => g.Flush
  | Act.setHdr k v => { g with hdr := hSet g.hdr k v }
  | Act.addHdr k v => { g with hdr := hAdd g.hdr k v }
  | Act.delHdr k => { g with hdr := hDel g.hdr k }

def gRW.run (detect : List Nat → String) (g : gRW) (acts : List Act) : gRW :=
  acts.foldl (gRW.step detect) g

/-- `gzipHandler.ServeHTTP` (src/httpgzip.go:57-66), with the request
abstracted by its `Accept-Encoding` value: add `Vary: Accept-Encoding`,
then either pass the request through untouched (`none`) or wrap the writer. -/
def gzipHandlerServeHTTP (ae : String) (h : Header) (w : Nat) (isF : Bool)
    (p : Pool) : Header × Option gRW :=
  let h1 := hAdd h "Vary" hdrAcceptEncoding
  if allowsGzip ae then (h1, some (gRW.mk0 w h1 isF p)) else (h1, none)

/-! ## Spec-side skip predicate (the claims' four rules) -/

/-- Rule 1: a `Content-Range` header is present. -/
def ruleContentRange (h : Header) : Bool := decide (hGet h hdrContentRange ≠ "")

/-- Rule 2: a `Content-Encoding` header is present. -/
def ruleContentEncoding (h : Header) : Bool := decide (hGet h hdrContentEncoding ≠ "")

/-- Rule 3: a `Content-Length` value that parses as an integer strictly
below the threshold (an absent or unparsable value never matches). -/
def ruleSmallContentLength (h : Header) : Bool :=
  match atoi (hGet h hdrContentLength).data with
  | some n => decide (n < compressThreshold)
  | none => false

/-- Rule 4: a declared (non-empty) `Content-Type` outside the supported
set (an undeclared type never matches). -/
def ruleUnsupportedContentType (h : Header) : Bool :=
  decide (hGet h hdrContentType ≠ "") && !supportedContentType (hGet h hdrContentType)

/-- The spec-side skip predicate: the four rules in their stated precedence
(they all decide "skip", so first-match-wins coincides with disjunction);
when none matches, the decision is compressing. -/
def skipPredSpec (h : Header) : Bool :=
  ruleContentRange h || ruleContentEncoding h || ruleSmallContentLength h ||
    ruleUnsupportedContentType h

/-! ## Trace predicates -/

/-- The compression-signalling header mutations performed by the writer. -/
def isMut : Ev → Bool
  | Ev.setCE => true
  | Ev.delCL => true
  | _ => false

/-- Events that carry (or may carry) body bytes to the underlying writer:
raw forwards, and everything entering or leaving the gzip stream. -/
def isBodyEv : Ev → Bool
  | Ev.body => true
  | Ev.zbody => true
  | Ev.zflush => true
  | Ev.zfinal _ => true
  | _ => false

def noMut (l : List Ev) : Bool := l.all fun e => !isMut e

def noBody (l : List Ev) : Bool := l.all fun e => !isBodyEv e

/-- Every compression-signalling mutation precedes every body event: once a
body event has occurred, no mutation event follows. -/
def mutBeforeBody : List Ev → Bool
  | [] => true
  | e :: r => if isBodyEv e then noMut r else mutBeforeBody r

def countCE (l : List Ev) : Nat :=
  l.countP fun e => match e with | Ev.setCE => true | _ => false

def countDL (l : List Ev) : Nat :=
  l.countP fun e => match e with | Ev.delCL => true | _ => false

def countBody (l : List Ev) : Nat := l.countP fun e => isBodyEv e

/-- Number of explicit `WriteHeader` calls in a handler's interaction. -/
def countWH (acts : List Act) : Nat :=
  acts.countP fun a => match a with | Act.writeHeader _ => true | _ => false

/-! ## The claim-C3 run invariant -/

/-- Reached-state invariant tying the writer's flags to its trace: the two
signalling mutations have happened exactly when a stream is held, all
mutations precede all body events, skipping excludes a held stream, and
before the first commit nothing body-like was emitted and no decision was
made. -/
def C3inv (g : gRW) : Prop :=
  countCE g.out = (if g.z.isSome then 1 else 0)
  ∧ countDL g.out = (if g.z.isSome then 1 else 0)
  ∧ mutBeforeBody g.out = true
  ∧ (g.skip = true → g.z = none)
  ∧ (g.wroteHeader = false → noBody g.out = true ∧ g.z = none ∧ g.skip = false)

/-- The deferred state: committed via a 204/304/206 status but still
undecided.  A further explicit `WriteHeader` with a normal code is the only
way to decide from here. -/
def specialG (g : gRW) : Prop :=
  g.wroteHeader = true ∧ g.z = none ∧ g.skip = false

/-! ## Helper lemmas: headers -/

theorem hGetAll_hDel_ne (h : Header) (k k' : String) (hne : k ≠ k') :
    hGetAll (hDel h k) k' = hGetAll h k' := by
  induction h with
  | nil => rfl
  | cons p r ih =>
    obtain ⟨a, vs⟩ := p
    by_cases ha : a = k
    · subst ha
      simp [hDel, hGetAll, ih, hne]
    · simp [hDel, hGetAll, ha, ih]

theorem hGet_hSet_ne (h : Header) (k k' v : String) (hne : k ≠ k') :
    hGet (hSet h k v) k' = hGet h k' := by
  unfold hGet hSet
  rw [hGetAll, if_neg hne, hGetAll_hDel_ne h k k' hne]

theorem hGet_hDel_ne (h : Header) (k k' : String) (hne : k ≠ k') :
    hGet (hDel h k) k' = hGet h k' := by
  unfold hGet
  rw [hGetAll_hDel_ne h k k' hne]

theorem hGetAll_hAdd_self (h : Header) (k v : String) :
    hGetAll (hAdd h k v) k = hGetAll h k ++ [v] := by
  unfold hAdd
  rw [hGetAll, if_pos rfl]

/-! ## Helper lemmas: the decision state and `init` -/

theorem decision_none_iff (g : gRW) :
    g.decision = none ↔ g.z = none ∧ g.skip = false := by
  unfold gRW.decision
  cases hz : g.z <;> cases hsk : g.skip <;> simp

/-- Once decided, `init` is a no-op: the skip predicate is evaluated at most
once per response. -/
theorem init_of_decided (g : gRW) (h : g.decision.isSome) : g.init = g := by
  unfold gRW.decision at h
  unfold gRW.init
  by_cases hz : g.z.isSome
  · simp [hz]
  · by_cases hsk : g.skip
    · simp [hsk]
    · simp [hz, hsk] at h

/-- The threshold guard of `init` tests `cl != ""` before parsing, but
`Atoi` fails on the empty string anyway. -/
theorem smallCL_guard (cl : String) :
    (decide (cl ≠ "") &&
      (match atoi cl.data with
       | some n => decide (n < compressThreshold)
       | none => false)) =
    (match atoi cl.data with
     | some n => decide (n < compressThreshold)
     | none => false) := by
  by_cases h : cl = ""
  · subst h
    have ha : atoi ("" : String).data = none := by decide
    simp [ha]
  · simp [h]

/-- On an undecided writer, `init` evaluates the skip predicate: it either
records the skip, or acquires a stream and performs the two
compression-signalling header mutations. -/
theorem init_undecided (g : gRW) (hz : g.z = none) (hsk : g.skip = false) :
    g.init =
      if skipPredSpec g.hdr then { g with skip := true }
      else
        { g with
          z := some g.pool.get.1
          pool := g.pool.get.2
          hdr := hDel (hSet g.hdr hdrContentEncoding "gzip") hdrContentLength
          out := g.out ++ [Ev.setCE, Ev.delCL] } := by
  unfold gRW.init skipPredSpec ruleContentRange ruleContentEncoding
    ruleSmallContentLength ruleUnsupportedContentType
  by_cases h1 : hGet g.hdr hdrContentRange = ""
  case neg => simp [hz, hsk, h1]
  by_cases h2 : hGet g.hdr hdrContentEncoding = ""
  case neg => simp [hz, hsk, h1, h2]
  by_cases h3 : (match atoi (hGet g.hdr hdrContentLength).data with
      | some n => decide (n < compressThreshold)
      | none => false) = true
  case pos =>
    have hcl : ¬hGet g.hdr hdrContentLength = "" := by
      intro he
      rw [he] at h3
      exact absurd h3 (by decide)
    simp [hz, hsk, h1, h2, h3, hcl]
  case neg =>
    rw [Bool.not_eq_true] at h3
    by_cases h4 : (decide (hGet g.hdr hdrContentType ≠ "") &&
        !supportedContentType (hGet g.hdr hdrContentType)) = true
    · simp [hz, hsk, h1, h2, h3, h4]
    · rw [Bool.not_eq_true] at h4
      simp [hz, hsk, h1, h2, h3, h4]

/-! ## Helper lemmas: traces -/

theorem noMut_append (l m : List Ev) : noMut (l ++ m) = (noMut l && noMut m) := by
  simp [noMut, List.all_append]

theorem noBody_append (l m : List Ev) : noBody (l ++ m) = (noBody l && noBody m) := by
  simp [noBody, List.all_append]

theorem mutBeforeBody_of_noMut : ∀ l : List Ev, noMut l = true → mutBeforeBody l = true := by
  intro l
  induction l with
  | nil => intro _; rfl
  | cons e r ih =>
    intro h
    simp only [noMut, List.all_cons, Bool.and_eq_true] at h
    by_cases hb : isBodyEv e = true
    · simp only [mutBeforeBody, hb, if_true]
      simpa [noMut] using h.2
    · simp only [mutBeforeBody, hb, if_false]
      exact ih (by simpa [noMut] using h.2)

theorem mutBeforeBody_append_of_noBody :
    ∀ l m : List Ev, noBody l = true → mutBeforeBody (l ++ m) = mutBeforeBody m := by
  intro l m
  induction l with
  | nil => intro _; rfl
  | cons e r ih =>
    intro h
    simp only [noBody, List.all_cons, Bool.and_eq_true] at h
    have he : isBodyEv e = false := by simpa using h.1
    rw [List.cons_append]
    simp only [mutBeforeBody, he, if_false]
    exact ih (by simpa [noBody] using h.2)

theorem mutBeforeBody_append_nonmut :
    ∀ l m : List Ev, mutBeforeBody l = true → noMut m = true →
      mutBeforeBody (l ++ m) = true := by
  intro l m
  induction l with
  | nil => intro _ hm; simpa using mutBeforeBody_of_noMut m hm
  | cons e r ih =>
    intro hl hm
    rw [List.cons_append]
    simp only [mutBeforeBody] at hl ⊢
    by_cases hb : isBodyEv e = true
    · rw [if_pos hb] at hl ⊢
      rw [noMut_append, hl, hm]
      rfl
    · rw [if_neg hb] at hl ⊢
      exact ih hl hm

theorem countCE_append (l m : List Ev) : countCE (l ++ m) = countCE l + countCE m :=
  List.countP_append _ _ _

theorem countDL_append (l m : List Ev) : countDL (l ++ m) = countDL l + countDL m :=
  List.countP_append _ _ _

theorem noBody_countBody (l : List Ev) (h : noBody l = true) : countBody l = 0 := by
  rw [countBody, List.countP_eq_zero]
  intro e he
  rw [noBody, List.all_eq_true] at h
  simpa using h e he

/-! ## Helper lemmas: characterising the writer's operations -/

theorem decision_isSome_of_skip (g : gRW) (h : g.skip = true) : g.decision.isSome := by
  unfold gRW.decision
  cases hz : g.z.isSome <;> simp [hz, h]

/-- On a decided writer, `WriteHeader` only forwards the status code. -/
theorem WriteHeader_decided (code : Nat) (g : gRW) (h : g.decision.isSome) :
    gRW.WriteHeader code g =
      { g with wroteHeader := true, out := g.out ++ [Ev.commit code] } := by
  unfold gRW.WriteHeader
  dsimp only
  by_cases hcond : g.z = none ∧ code ≠ 204 ∧ code ≠ 304 ∧ code ≠ 206
  · rw [if_pos hcond, init_of_decided { g with wroteHeader := true } h]
  · rw [if_neg hcond]

/-- On a 204/304/206 commit, `WriteHeader` makes no decision and forwards
the status code unchanged. -/
theorem WriteHeader_special (code : Nat) (g : gRW)
    (hc : code = 204 ∨ code = 304 ∨ code = 206) :
    gRW.WriteHeader code g =
      { g with wroteHeader := true, out := g.out ++ [Ev.commit code] } := by
  unfold gRW.WriteHeader
  dsimp only
  rw [if_neg]
  rintro ⟨-, h204, h304, h206⟩
  rcases hc with h | h | h
  · exact h204 h
  · exact h304 h
  · exact h206 h

/-- On an undecided writer and a normal status code, `WriteHeader` runs the
skip predicate and then forwards the status code. -/
theorem WriteHeader_undecided_normal (code : Nat) (g : gRW) (hz : g.z = none)
    (hsk : g.skip = false) (hc : code ≠ 204 ∧ code ≠ 304 ∧ code ≠ 206) :
    gRW.WriteHeader code g =
      if skipPredSpec g.hdr then
        { g with wroteHeader := true, skip := true,
                 out := g.out ++ [Ev.commit code] }
      else
        { g with wroteHeader := true, z := some g.pool.get.1,
                 pool := g.pool.get.2,
                 hdr := hDel (hSet g.hdr hdrContentEncoding "gzip") hdrContentLength,
                 out := g.out ++ [Ev.setCE, Ev.delCL, Ev.commit code] } := by
  unfold gRW.WriteHeader
  dsimp only
  rw [if_pos ⟨hz, hc⟩, init_undecided { g with wroteHeader := true } hz hsk]
  by_cases hb : skipPredSpec g.hdr = true
  · simp [hb]
  · simp only [Bool.not_eq_true] at hb
    simp [hb, List.append_assoc]

/-- After the header was committed, `Write` forwards body bytes without
sniffing and without evaluating the skip predicate: raw if the writer is
skipping (or never decided), through the gzip stream otherwise. -/
theorem Write_wroteHeader (detect : List Nat → String) (b : List Nat) (g : gRW)
    (hw : g.wroteHeader = true) :
    gRW.Write detect b g =
      if g.skip = true ∨ g.z = none then { g with out := g.out ++ [Ev.body] }
      else { g with out := g.out ++ [Ev.zbody] } := by
  unfold gRW.Write
  dsimp only
  rw [if_neg (show ¬¬g.wroteHeader = true by simp [hw])]

/-- A first body write on a fresh (uncommitted, undecided) writer: sniff a
content type if none is set, synthesize the implicit 200 commit (running
the skip predicate on the possibly-sniffed headers), then forward the body
bytes per the decision. -/
theorem Write_fresh (detect : List Nat → String) (b : List Nat) (g : gRW)
    (hw : g.wroteHeader = false) (hz : g.z = none) (hsk : g.skip = false) :
    gRW.Write detect b g =
      (let h1 := if hGet g.hdr hdrContentType = "" then
          hSet g.hdr hdrContentType (detect b) else g.hdr
       let o1 := g.out ++ (if hGet g.hdr hdrContentType = "" then
          [Ev.sniffCT (detect b)] else [])
       if skipPredSpec h1 then
         { g with hdr := h1, skip := true, wroteHeader := true,
                  out := o1 ++ [Ev.commit 200, Ev.body] }
       else
         { g with wroteHeader := true, z := some g.pool.get.1,
                  pool := g.pool.get.2,
                  hdr := hDel (hSet h1 hdrContentEncoding "gzip") hdrContentLength,
                  out := o1 ++ [Ev.setCE, Ev.delCL, Ev.commit 200, Ev.zbody] }) := by
  unfold gRW.Write
  dsimp only
  rw [if_pos (show ¬g.wroteHeader = true by simp [hw])]
  by_cases hct : hGet g.hdr hdrContentType = ""
  · rw [if_pos hct,
      WriteHeader_undecided_normal 200
        { g with hdr := hSet g.hdr hdrContentType (detect b),
                 out := g.out ++ [Ev.sniffCT (detect b)] }
        hz hsk ⟨by decide, by decide, by decide⟩]
    by_cases hsp : skipPredSpec (hSet g.hdr hdrContentType (detect b)) = true
    · simp [hw, hct, hsp, List.append_assoc]
    · simp only [Bool.not_eq_true] at hsp
      simp [hw, hsk, hct, hsp, hz, List.append_assoc]
  · rw [if_neg hct,
      WriteHeader_undecided_normal 200 g hz hsk ⟨by decide, by decide, by decide⟩]
    by_cases hsp : skipPredSpec g.hdr = true
    · simp [hw, hct, hsp, List.append_assoc]
    · simp only [Bool.not_eq_true] at hsp
      simp [hw, hsk, hct, hsp, hz, List.append_assoc]

/-- `Flush` only emits flush events; it never decides, never mutates
headers. -/
theorem Flush_eq (g : gRW) :
    g.Flush =
      { g with out := g.out ++ (if g.z.isSome then [Ev.zflush] else [])
          ++ (if g.isFlusher then [Ev.flushUnder] else []) } := by
  obtain ⟨w, hdr, z, skip, wh, isF, pool, out⟩ := g
  unfold gRW.Flush
  cases z <;> cases isF <;> simp

theorem Close_none (g : gRW) (h : g.z = none) : g.Close = g := by
  unfold gRW.Close
  rw [h]

theorem Close_some (g : gRW) (id : Nat) (h : g.z = some id) :
    g.Close =
      { g with z := none, pool := g.pool.put id,
               out := g.out ++ [Ev.zfinal id]
                 ++ (if g.isFlusher then [Ev.flushUnder] else []) } := by
  unfold gRW.Close
  rw [h]
  cases hf : g.isFlusher <;> simp [hf, List.append_assoc]

theorem noMut_countCE (m : List Ev) (h : noMut m = true) : countCE m = 0 := by
  rw [countCE, List.countP_eq_zero]
  intro e he
  rw [noMut, List.all_eq_true] at h
  have := h e he
  cases e <;> simp_all [isMut]

theorem noMut_countDL (m : List Ev) (h : noMut m = true) : countDL m = 0 := by
  rw [countDL, List.countP_eq_zero]
  intro e he
  rw [noMut, List.all_eq_true] at h
  have := h e he
  cases e <;> simp_all [isMut]

theorem C3inv_Flush (g : gRW) (hinv : C3inv g) : C3inv g.Flush := by
  obtain ⟨h1, h2, h3, h4, h5⟩ := hinv
  unfold C3inv
  rw [Flush_eq g]
  dsimp only
  have hnm : noMut ((if g.z.isSome then [Ev.zflush] else [])
      ++ (if g.isFlusher then [Ev.flushUnder] else [])) = true := by
    cases hz : g.z.isSome <;> cases hf : g.isFlusher <;>
      simp [hz, hf, noMut, isMut]
  refine ⟨?_, ?_, ?_, h4, ?_⟩
  · rw [List.append_assoc, countCE_append, noMut_countCE _ hnm, Nat.add_zero]
    exact h1
  · rw [List.append_assoc, countDL_append, noMut_countDL _ hnm, Nat.add_zero]
    exact h2
  · rw [List.append_assoc]
    exact mutBeforeBody_append_nonmut _ _ h3 hnm
  · intro hw
    obtain ⟨hnb, hz, hsk⟩ := h5 hw
    refine ⟨?_, hz, hsk⟩
    rw [List.append_assoc, noBody_append, hnb]
    have hz' : g.z.isSome = false := by rw [hz]; rfl
    cases hf : g.isFlusher <;> simp [hz', hf, noBody, isBodyEv]

theorem C3inv_hdrMut (g : gRW) (h' : Header) (hinv : C3inv g) :
    C3inv { g with hdr := h' } := hinv

theorem C3inv_WriteHeader (code : Nat) (g : gRW) (hinv : C3inv g)
    (hns : ¬specialG g) : C3inv (gRW.WriteHeader code g) := by
  obtain ⟨h1, h2, h3, h4, h5⟩ := hinv
  by_cases hd : g.decision.isSome
  · rw [WriteHeader_decided code g hd]
    unfold C3inv
    dsimp only
    refine ⟨?_, ?_, ?_, h4, by simp⟩
    · rw [countCE_append, noMut_countCE [Ev.commit code] (by simp [noMut, isMut]), Nat.add_zero]
      exact h1
    · rw [countDL_append, noMut_countDL [Ev.commit code] (by simp [noMut, isMut]), Nat.add_zero]
      exact h2
    · exact mutBeforeBody_append_nonmut _ _ h3 (by simp [noMut, isMut])
  · have hz : g.z = none := by
      unfold gRW.decision at hd
      cases hzz : g.z
      · rfl
      · rw [hzz] at hd
        simp at hd
    have hsk : g.skip = false := by
      unfold gRW.decision at hd
      cases hss : g.skip
      · rfl
      · rw [hss, hz] at hd
        simp at hd
    have hw : g.wroteHeader = false := by
      cases hwc : g.wroteHeader
      · rfl
      · exact absurd ⟨hwc, hz, hsk⟩ hns
    obtain ⟨hnb, -, -⟩ := h5 hw
    have hz' : g.z.isSome = false := by rw [hz]; rfl
    by_cases hcS : code = 204 ∨ code = 304 ∨ code = 206
    · rw [WriteHeader_special code g hcS]
      unfold C3inv
      dsimp only
      refine ⟨?_, ?_, ?_, ?_, by simp⟩
      · rw [countCE_append, noMut_countCE [Ev.commit code] (by simp [noMut, isMut]), Nat.add_zero]
        exact h1
      · rw [countDL_append, noMut_countDL [Ev.commit code] (by simp [noMut, isMut]), Nat.add_zero]
        exact h2
      · exact mutBeforeBody_append_nonmut _ _ h3 (by simp [noMut, isMut])
      · intro _
        exact hz
    · have hc : code ≠ 204 ∧ code ≠ 304 ∧ code ≠ 206 :=
        ⟨fun h => hcS (Or.inl h), fun h => hcS (Or.inr (Or.inl h)),
          fun h => hcS (Or.inr (Or.inr h))⟩
      rw [WriteHeader_undecided_normal code g hz hsk hc]
      by_cases hb : skipPredSpec g.hdr = true
      · rw [if_pos hb]
        unfold C3inv
        dsimp only
        refine ⟨?_, ?_, ?_, fun _ => hz, by simp⟩
        · rw [countCE_append, noMut_countCE [Ev.commit code] (by simp [noMut, isMut]),
            Nat.add_zero, hz']
          rw [hz'] at h1
          exact h1
        · rw [countDL_append, noMut_countDL [Ev.commit code] (by simp [noMut, isMut]),
            Nat.add_zero, hz']
          rw [hz'] at h2
          exact h2
        · exact mutBeforeBody_append_nonmut _ _ h3 (by simp [noMut, isMut])
      · rw [if_neg hb]
        unfold C3inv
        dsimp only
        refine ⟨?_, ?_, ?_, ?_, by simp⟩
        · rw [hz'] at h1
          simp only [Bool.false_eq_true, if_false] at h1
          simp [countCE_append, countCE, List.countP_cons, List.countP_nil, h1]
          intro a ha
          have := List.countP_eq_zero.mp h1 a ha
          simpa using this
        · rw [hz'] at h2
          simp only [Bool.false_eq_true, if_false] at h2
          simp [countDL_append, countDL, List.countP_cons, List.countP_nil, h2]
          intro a ha
          have := List.countP_eq_zero.mp h2 a ha
          simpa using this
        · rw [mutBeforeBody_append_of_noBody _ _ hnb]
          simp [mutBeforeBody, noMut, isMut, isBodyEv]
        · intro hcontra
          rw [hsk] at hcontra
          exact absurd hcontra (by decide)

theorem countCE_nil : countCE [] = 0 := rfl

theorem countDL_nil : countDL [] = 0 := rfl

theorem countCE_cons (e : Ev) (l : List Ev) :
    countCE (e :: l) = countCE l + (if e = Ev.setCE then 1 else 0) := by
  cases e <;> simp [countCE, List.countP_cons]

theorem countDL_cons (e : Ev) (l : List Ev) :
    countDL (e :: l) = countDL l + (if e = Ev.delCL then 1 else 0) := by
  cases e <;> simp [countDL, List.countP_cons]

theorem C3inv_Write (detect : List Nat → String) (b : List Nat) (g : gRW)
    (hinv : C3inv g) : C3inv (gRW.Write detect b g) := by
  obtain ⟨h1, h2, h3, h4, h5⟩ := hinv
  by_cases hw : g.wroteHeader = true
  · rw [Write_wroteHeader detect b g hw]
    by_cases hcond : g.skip = true ∨ g.z = none
    · rw [if_pos hcond]
      unfold C3inv
      dsimp only
      refine ⟨?_, ?_, ?_, h4, by simp [hw]⟩
      · rw [countCE_append, noMut_countCE [Ev.body] (by simp [noMut, isMut]),
          Nat.add_zero]
        exact h1
      · rw [countDL_append, noMut_countDL [Ev.body] (by simp [noMut, isMut]),
          Nat.add_zero]
        exact h2
      · exact mutBeforeBody_append_nonmut _ _ h3 (by simp [noMut, isMut])
    · rw [if_neg hcond]
      unfold C3inv
      dsimp only
      refine ⟨?_, ?_, ?_, h4, by simp [hw]⟩
      · rw [countCE_append, noMut_countCE [Ev.zbody] (by simp [noMut, isMut]),
          Nat.add_zero]
        exact h1
      · rw [countDL_append, noMut_countDL [Ev.zbody] (by simp [noMut, isMut]),
          Nat.add_zero]
        exact h2
      · exact mutBeforeBody_append_nonmut _ _ h3 (by simp [noMut, isMut])
  · have hwf : g.wroteHeader = false := by simpa using hw
    obtain ⟨hnb, hz, hsk⟩ := h5 hwf
    have hz' : g.z.isSome = false := by rw [hz]; rfl
    rw [hz'] at h1 h2
    simp only [Bool.false_eq_true, if_false] at h1 h2
    rw [Write_fresh detect b g hwf hz hsk]
    dsimp only
    by_cases hct : hGet g.hdr hdrContentType = ""
    · rw [if_pos hct, if_pos hct]
      by_cases hb : skipPredSpec (hSet g.hdr hdrContentType (detect b)) = true
      · rw [if_pos hb]
        unfold C3inv
        dsimp only
        refine ⟨?_, ?_, ?_, fun _ => hz, by simp⟩
        · simp [List.append_assoc, countCE_append, countCE_cons, countCE_nil, h1, hz']
        · simp [List.append_assoc, countDL_append, countDL_cons, countDL_nil, h2, hz']
        · rw [List.append_assoc, mutBeforeBody_append_of_noBody _ _ hnb]
          simp [mutBeforeBody, isBodyEv, noMut, isMut]
      · rw [if_neg hb]
        unfold C3inv
        dsimp only
        refine ⟨?_, ?_, ?_, ?_, by simp⟩
        · simp [List.append_assoc, countCE_append, countCE_cons, countCE_nil, h1]
        · simp [List.append_assoc, countDL_append, countDL_cons, countDL_nil, h2]
        · rw [List.append_assoc, mutBeforeBody_append_of_noBody _ _ hnb]
          simp [mutBeforeBody, isBodyEv, noMut, isMut]
        · intro hcontra
          rw [hsk] at hcontra
          exact absurd hcontra (by decide)
    · rw [if_neg hct, if_neg hct]
      by_cases hb : skipPredSpec g.hdr = true
      · rw [if_pos hb]
        unfold C3inv
        dsimp only
        refine ⟨?_, ?_, ?_, fun _ => hz, by simp⟩
        · simp [countCE_append, countCE_cons, countCE_nil, h1, hz']
        · simp [countDL_append, countDL_cons, countDL_nil, h2, hz']
        · rw [List.append_nil, mutBeforeBody_append_of_noBody _ _ hnb]
          simp [mutBeforeBody, isBodyEv, noMut, isMut]
      · rw [if_neg hb]
        unfold C3inv
        dsimp only
        refine ⟨?_, ?_, ?_, ?_, by simp⟩
        · simp [countCE_append, countCE_cons, countCE_nil, h1]
        · simp [countDL_append, countDL_cons, countDL_nil, h2]
        · rw [List.append_nil, mutBeforeBody_append_of_noBody _ _ hnb]
          simp [mutBeforeBody, isBodyEv, noMut, isMut]
        · intro hcontra
          rw [hsk] at hcontra
          exact absurd hcontra (by decide)

theorem WriteHeader_decision (code : Nat) (g : gRW) (d : Bool)
    (h : g.decision = some d) : (gRW.WriteHeader code g).decision = some d := by
  rw [WriteHeader_decided code g (by rw [h]; rfl)]
  unfold gRW.decision at h ⊢
  dsimp only
  exact h

theorem Write_decision (detect : List Nat → String) (b : List Nat) (g : gRW)
    (d : Bool) (h : g.decision = some d) :
    (gRW.Write detect b g).decision = some d := by
  unfold gRW.Write
  dsimp only
  by_cases hw : ¬g.wroteHeader = true
  · rw [if_pos hw]
    by_cases hct : hGet g.hdr hdrContentType = ""
    · rw [if_pos hct]
      have h' := WriteHeader_decision 200
        { g with hdr := hSet g.hdr hdrContentType (detect b),
                 out := g.out ++ [Ev.sniffCT (detect b)] } d h
      split <;>
        · unfold gRW.decision at h' ⊢
          exact h'
    · rw [if_neg hct]
      have h' := WriteHeader_decision 200 g d h
      split <;>
        · unfold gRW.decision at h' ⊢
          exact h'
  · rw [if_neg hw]
    split <;>
      · unfold gRW.decision at h ⊢
        exact h

theorem Flush_decision (g : gRW) (d : Bool) (h : g.decision = some d) :
    g.Flush.decision = some d := by
  rw [Flush_eq g]
  unfold gRW.decision at h ⊢
  dsimp only
  exact h

/-- A single handler action never reverts a made decision. -/
theorem step_decision (detect : List Nat → String) (g : gRW) (a : Act) (d : Bool)
    (h : g.decision = some d) : (gRW.step detect g a).decision = some d := by
  cases a with
  | writeHeader c => exact WriteHeader_decision c g d h
  | write b => exact Write_decision detect b g d h
  | flush => exact Flush_decision g d h
  | setHdr k v => exact h
  | addHdr k v => exact h
  | delHdr k => exact h

/-- A run of handler actions never reverts a made decision. -/
theorem run_decision (detect : List Nat → String) (acts : List Act) :
    ∀ (g : gRW) (d : Bool), g.decision = some d →
      (gRW.run detect g acts).decision = some d := by
  induction acts with
  | nil => intro g d h; exact h
  | cons a rest ih =>
    intro g d h
    exact ih (gRW.step detect g a) d (step_decision detect g a d h)

/-- Only an explicit `WriteHeader` can bring the writer into the deferred
(committed-but-undecided) state. -/
theorem specialG_step_back (detect : List Nat → String) (g : gRW) (a : Act)
    (hinv : C3inv g) (hna : ∀ c, a ≠ Act.writeHeader c)
    (hs : specialG (gRW.step detect g a)) : specialG g := by
  obtain ⟨h1, h2, h3, h4, h5⟩ := hinv
  cases a with
  | writeHeader c => exact absurd rfl (hna c)
  | write b =>
    by_cases hw : g.wroteHeader = true
    · rw [gRW.step, Write_wroteHeader detect b g hw] at hs
      unfold specialG at hs ⊢
      split at hs <;> exact hs
    · have hwf : g.wroteHeader = false := by simpa using hw
      obtain ⟨hnb, hz, hsk⟩ := h5 hwf
      rw [gRW.step, Write_fresh detect b g hwf hz hsk] at hs
      dsimp only at hs
      unfold specialG at hs
      split at hs <;> split at hs <;> simp at hs
  | flush =>
    rw [gRW.step, Flush_eq g] at hs
    exact hs
  | setHdr k v => exact hs
  | addHdr k v => exact hs
  | delHdr k => exact hs

theorem C3inv_step (detect : List Nat → String) (g : gRW) (a : Act)
    (hinv : C3inv g) (hna : specialG g → ∀ c, a ≠ Act.writeHeader c) :
    C3inv (gRW.step detect g a) := by
  cases a with
  | writeHeader c =>
    refine C3inv_WriteHeader c g hinv ?_
    intro hsp
    exact absurd rfl (hna hsp c)
  | write b => exact C3inv_Write detect b g hinv
  | flush => exact C3inv_Flush g hinv
  | setHdr k v => exact C3inv_hdrMut g _ hinv
  | addHdr k v => exact C3inv_hdrMut g _ hinv
  | delHdr k => exact C3inv_hdrMut g _ hinv

theorem countWH_cons_wh (c : Nat) (rest : List Act) :
    countWH (Act.writeHeader c :: rest) = countWH rest + 1 := by
  simp [countWH, List.countP_cons]

theorem countWH_cons_nonwh (a : Act) (rest : List Act)
    (ha : ∀ c, a ≠ Act.writeHeader c) :
    countWH (a :: rest) = countWH rest := by
  cases a with
  | writeHeader c => exact absurd rfl (ha c)
  | write b => simp [countWH, List.countP_cons]
  | flush => simp [countWH, List.countP_cons]
  | setHdr k v => simp [countWH, List.countP_cons]
  | addHdr k v => simp [countWH, List.countP_cons]
  | delHdr k => simp [countWH, List.countP_cons]

/-- The run induction for claim C3: from a state satisfying the invariant,
with at most one explicit `WriteHeader` remaining (and none remaining if
the state is already deferred-committed), the invariant holds at the end of
the run. -/
theorem run_C3inv (detect : List Nat → String) :
    ∀ (acts : List Act) (g : gRW), C3inv g → countWH acts ≤ 1 →
      (specialG g → countWH acts = 0) → C3inv (gRW.run detect g acts) := by
  intro acts
  induction acts with
  | nil => intro g hinv _ _; exact hinv
  | cons a rest ih =>
    intro g hinv hle hsp
    by_cases hwh : ∃ c, a = Act.writeHeader c
    · obtain ⟨c, rfl⟩ := hwh
      have hns : ¬specialG g := by
        intro hspg
        have h0 := hsp hspg
        rw [countWH_cons_wh] at h0
        omega
      have hrest : countWH rest = 0 := by
        rw [countWH_cons_wh] at hle
        omega
      refine ih (gRW.step detect g (Act.writeHeader c)) ?_ ?_ ?_
      · exact C3inv_step detect g _ hinv (fun hspg => absurd hspg hns)
      · rw [hrest]
        exact Nat.zero_le 1
      · intro _
        exact hrest
    · have hna : ∀ c, a ≠ Act.writeHeader c := by
        intro c hc
        exact hwh ⟨c, hc⟩
      have hcnt : countWH (a :: rest) = countWH rest := countWH_cons_nonwh a rest hna
      refine ih (gRW.step detect g a) ?_ ?_ ?_
      · exact C3inv_step detect g a hinv (fun _ => hna)
      · rw [← hcnt]
        exact hle
      · intro hsp'
        have hspg : specialG g := specialG_step_back detect g a hinv hna hsp'
        rw [← hcnt]
        exact hsp hspg

/-! ## Claim C1: the negotiator -/

theorem trimPrefixL_q_ne (p : List Char) :
    (trimPrefixL p "q=".data ≠ p) ↔ startsWithL p "q=".data = true := by
  unfold trimPrefixL
  by_cases hs : startsWithL p "q=".data = true
  · rw [if_pos hs]
    constructor
    · intro _
      exact hs
    · intro _
      cases p with
      | nil => simp [startsWithL] at hs
      | cons c1 p1 =>
        cases p1 with
        | nil => simp [startsWithL] at hs
        | cons c2 t =>
          show List.drop ("q=".data).length (c1 :: c2 :: t) ≠ c1 :: c2 :: t
          intro he
          have hlen := congrArg List.length he
          simp [List.length_drop] at hlen
          omega
  · rw [if_neg hs]
    simp [hs]

theorem trimPrefixL_q_drop (p : List Char) (hq : startsWithL p "q=".data = true) :
    trimPrefixL p "q=".data = p.drop 2 := by
  unfold trimPrefixL
  rw [if_pos hq]
  rfl

theorem allowsGzipLoop_eq : ∀ l : List (List Char),
    allowsGzipLoop l = (match firstGzipEntry l with
      | some e => gzipEntryVerdict e
      | none => false) := by
  intro l
  induction l with
  | nil => rfl
  | cons ss rest ih =>
    rcases hsp : splitN2 ';' ss with ⟨tok, param⟩
    cases param with
    | none =>
      by_cases hg : goTrimSpace tok = "gzip".data
      · simp [allowsGzipLoop, firstGzipEntry, gzipEntryVerdict, hsp, hg]
      · simp [allowsGzipLoop, firstGzipEntry, hsp, hg, ih]
    | some param =>
      by_cases hg : goTrimSpace tok = "gzip".data
      · simp only [allowsGzipLoop, firstGzipEntry, gzipEntryVerdict, hsp, hg,
          if_true, ne_eq, not_true_eq_false, if_false]
        by_cases hq : startsWithL (goTrimSpace param) "q=".data = true
        · rw [if_pos ((trimPrefixL_q_ne _).mpr hq), trimPrefixL_q_drop _ hq,
            if_pos hq]
        · have heq : trimPrefixL (goTrimSpace param) "q=".data = goTrimSpace param := by
            unfold trimPrefixL
            rw [if_neg hq]
          rw [if_neg (fun hcon => hcon heq), if_neg hq]
      · simp [allowsGzipLoop, firstGzipEntry, hsp, hg, ih]

theorem allowsGzip_eq_spec (hdr : String) : allowsGzip hdr = allowsGzipSpec hdr := by
  unfold allowsGzip allowsGzipSpec
  by_cases hc : containsSub hdr.data "gzip".data = true
  · rw [if_pos hc, if_pos hc, allowsGzipLoop_eq]
  · rw [if_neg hc, if_neg hc]

/-- Claim C1: for every Accept-Encoding header string, the negotiator's
result is decided by the first comma-separated entry whose
whitespace-trimmed token is exactly `"gzip"` (later entries are never
consulted): no parameter accepts, a `q=<number>` parameter accepts iff the
parsed value is strictly positive, and a malformed or non-`q=` parameter
rejects; with no `"gzip"` substring or no `"gzip"`-token entry (wildcards
included) the result is reject — plus the RFC 2616 example table. -/
theorem C1_negotiator_first_gzip_entry_decides :
    (∀ hdr : String, allowsGzip hdr = allowsGzipSpec hdr)
    ∧ allowsGzip "compress, gzip" = true
    ∧ allowsGzip "" = false
    ∧ allowsGzip "*" = false
    ∧ allowsGzip "compress;q=0.5, gzip;q=1.0" = true
    ∧ allowsGzip "gzip;q=1.0, identity;q=0.5, *;q=0" = true
    ∧ allowsGzip "gzip;q=0.0, *;q=0" = false
    ∧ allowsGzip "gzip;BAD" = false
    ∧ allowsGzip "gzip;q=X" = false := by
  refine ⟨allowsGzip_eq_spec, ?_, ?_, ?_, ?_, ?_, ?_, ?_, ?_⟩ <;> decide

/-! ## Claim C2: the skip predicate -/

/-- Claim C2: the skip predicate is evaluated at most once; on an undecided
writer it applies the four rules (Content-Range present, Content-Encoding
present, Content-Length parsing below the threshold, declared unsupported
Content-Type) with skip as soon as one matches and compressing otherwise;
an absent Content-Length and an undeclared Content-Type never disqualify. -/
theorem C2_skip_predicate_rules :
    (∀ g : gRW, g.decision.isSome → g.init = g)
    ∧ (∀ g : gRW, g.decision = none →
        g.init.decision = (if skipPredSpec g.hdr then some false else some true))
    ∧ (∀ h : Header, skipPredSpec h = (ruleContentRange h || ruleContentEncoding h
        || ruleSmallContentLength h || ruleUnsupportedContentType h))
    ∧ (∀ h : Header, hGet h hdrContentLength = "" → ruleSmallContentLength h = false)
    ∧ (∀ h : Header, hGet h hdrContentType = "" →
        ruleUnsupportedContentType h = false) := by
  refine ⟨init_of_decided, ?_, fun h => rfl, ?_, ?_⟩
  · intro g hdnone
    obtain ⟨hz, hsk⟩ := (decision_none_iff g).mp hdnone
    rw [init_undecided g hz hsk]
    by_cases hb : skipPredSpec g.hdr = true
    · rw [if_pos hb, if_pos hb]
      simp [gRW.decision, hz]
    · rw [if_neg hb, if_neg hb]
      simp [gRW.decision]
  · intro h hcl
    unfold ruleSmallContentLength
    rw [hcl]
    have ha : atoi ("" : String).data = none := by decide
    rw [ha]
  · intro h hct
    unfold ruleUnsupportedContentType
    rw [hct]
    simp

/-- Witness for C2 at concrete states: the fresh writer of an empty header
map is undecided and `init` decides it to compressing; a decided writer is
left untouched; the empty header map triggers neither the length rule nor
the type rule. -/
theorem C2_skip_predicate_rules_witness :
    ((gRW.mk0 7 [] false ⟨[], 0⟩).decision = none
      ∧ (gRW.mk0 7 [] false ⟨[], 0⟩).init.decision
          = (if skipPredSpec [] then some false else some true))
    ∧ ((gRW.mk0 7 [] false ⟨[], 0⟩).init.decision.isSome
      ∧ (gRW.mk0 7 [] false ⟨[], 0⟩).init.init = (gRW.mk0 7 [] false ⟨[], 0⟩).init)
    ∧ (hGet [] hdrContentLength = "" ∧ ruleSmallContentLength [] = false)
    ∧ (hGet [] hdrContentType = "" ∧ ruleUnsupportedContentType [] = false) :=
  ⟨⟨rfl, C2_skip_predicate_rules.2.1 _ rfl⟩,
    ⟨by decide, C2_skip_predicate_rules.1 _ (by decide)⟩,
    ⟨rfl, C2_skip_predicate_rules.2.2.2.1 [] rfl⟩,
    ⟨rfl, C2_skip_predicate_rules.2.2.2.2 [] rfl⟩⟩

/-! ## Claim C8: the supported-content-type classifier -/

theorem supportedCT_eq (s : String) :
    supportedContentType s = supportedContentTypeSpec s := by
  unfold supportedContentType supportedContentTypeSpec
  by_cases h0 : s = ""
  · subst h0
    decide
  · by_cases h1 : s = "image/svg+xml"
    · subst h1
      decide
    · by_cases h2 : s = "font/woff"
      · subst h2
        decide
      · by_cases h3 : s = "font/woff2"
        · subst h3
          decide
        · simp only [h0, h1, h2, h3, decide_False, Bool.or_false, Bool.false_or,
            if_false]
          cases ht : startsWithL s.data "text/".data
          · cases ha : startsWithL s.data "application/".data <;> simp [ht, ha]
          · simp [ht]

/-- Claim C8: the classifier accepts exactly the `"text/"`-prefixed
strings, the `"application/"`-prefixed strings containing `"json"`,
`"javascript"` or `"xml"`, and the three exact strings `"image/svg+xml"`,
`"font/woff"`, `"font/woff2"`; everything else — the empty string and
parameterised SVG/WOFF types included — is unsupported. -/
theorem C8_supported_content_type :
    (∀ s : String, supportedContentType s = supportedContentTypeSpec s)
    ∧ supportedContentType "" = false
    ∧ supportedContentType "text/plain" = true
    ∧ supportedContentType "application/json; charset=utf-8" = true
    ∧ supportedContentType "image/svg+xml" = true
    ∧ supportedContentType "font/woff" = true
    ∧ supportedContentType "font/woff2" = true
    ∧ supportedContentType "image/svg+xml; charset=utf-8" = false
    ∧ supportedContentType "font/woff; v=2" = false
    ∧ supportedContentType "application/octet-stream" = false := by
  refine ⟨supportedCT_eq, ?_, ?_, ?_, ?_, ?_, ?_, ?_, ?_, ?_⟩ <;> decide

/-! ## Claim C9: the dispatcher always adds `Vary` -/

/-- Claim C9: for every request — gzip-accepting or not — the dispatcher
appends `"Accept-Encoding"` to the response's `Vary` values before the
negotiator's verdict is applied, and only the negotiator's verdict decides
whether the writer is wrapped. -/
theorem C9_vary_added_before_negotiation :
    ∀ (ae : String) (h : Header) (w : Nat) (isF : Bool) (p : Pool),
      hGetAll (gzipHandlerServeHTTP ae h w isF p).1 "Vary"
          = hGetAll h "Vary" ++ [hdrAcceptEncoding]
      ∧ (gzipHandlerServeHTTP ae h w isF p).1 = hAdd h "Vary" hdrAcceptEncoding
      ∧ (gzipHandlerServeHTTP ae h w isF p).2
          = (if allowsGzip ae then
              some (gRW.mk0 w (hAdd h "Vary" hdrAcceptEncoding) isF p)
            else none) := by
  intro ae h w isF p
  unfold gzipHandlerServeHTTP
  refine ⟨?_, ?_, ?_⟩ <;> (split <;> simp_all [hGetAll_hAdd_self])

/-! ## Claim C10: closing is idempotent -/

/-- Claim C10: `Close` with no acquired stream is a no-op; otherwise it
finalises the stream, flushes the real writer when it supports flushing,
returns the stream to the pool exactly once and clears the reference, so a
repeated `Close` changes nothing. -/
theorem C10_close_idempotent_single_release :
    (∀ g : gRW, g.z = none → gRW.Close g = g)
    ∧ (∀ g : gRW, gRW.Close (gRW.Close g) = gRW.Close g)
    ∧ (∀ (g : gRW) (id : Nat), g.z = some id →
        (gRW.Close g).z = none
        ∧ (gRW.Close g).pool = g.pool.put id
        ∧ (gRW.Close g).pool.avail.count id = g.pool.avail.count id + 1
        ∧ (gRW.Close g).out = g.out ++ [Ev.zfinal id]
            ++ (if g.isFlusher then [Ev.flushUnder] else [])) := by
  refine ⟨Close_none, ?_, ?_⟩
  · intro g
    cases hz : g.z with
    | none => rw [Close_none g hz, Close_none g hz]
    | some id =>
      rw [Close_some g id hz]
      exact Close_none _ rfl
  · intro g id hz
    rw [Close_some g id hz]
    refine ⟨rfl, rfl, ?_, rfl⟩
    exact List.count_cons_self id _

/-- Witness for C10 at a concrete state: a writer holding stream `5` is
closed once (releasing `5` into the pool) and a second close is the
identity; a fresh writer's close is the identity. -/
theorem C10_close_witness :
    ((gRW.mk0 1 [] true ⟨[], 9⟩).z = none
      ∧ gRW.Close (gRW.mk0 1 [] true ⟨[], 9⟩) = gRW.mk0 1 [] true ⟨[], 9⟩)
    ∧ (({ gRW.mk0 1 [] true ⟨[], 9⟩ with z := some 5 } : gRW).z = some 5
      ∧ (gRW.Close { gRW.mk0 1 [] true ⟨[], 9⟩ with z := some 5 }).z = none
      ∧ (gRW.Close { gRW.mk0 1 [] true ⟨[], 9⟩ with z := some 5 }).pool
          = ({ gRW.mk0 1 [] true ⟨[], 9⟩ with z := some 5 } : gRW).pool.put 5
      ∧ (gRW.Close { gRW.mk0 1 [] true ⟨[], 9⟩ with z := some 5 }).pool.avail.count 5
          = ({ gRW.mk0 1 [] true ⟨[], 9⟩ with z := some 5 } : gRW).pool.avail.count 5 + 1
      ∧ (gRW.Close { gRW.mk0 1 [] true ⟨[], 9⟩ with z := some 5 }).out
          = ({ gRW.mk0 1 [] true ⟨[], 9⟩ with z := some 5 } : gRW).out
            ++ [Ev.zfinal 5]
            ++ (if ({ gRW.mk0 1 [] true ⟨[], 9⟩ with z := some 5 } : gRW).isFlusher
                then [Ev.flushUnder] else [])) :=
  ⟨⟨rfl, C10_close_idempotent_single_release.1 _ rfl⟩,
    ⟨rfl, (C10_close_idempotent_single_release.2.2 _ 5 rfl).1,
      (C10_close_idempotent_single_release.2.2 _ 5 rfl).2.1,
      (C10_close_idempotent_single_release.2.2 _ 5 rfl).2.2.1,
      (C10_close_idempotent_single_release.2.2 _ 5 rfl).2.2.2⟩⟩

/-! ## Claim C6: the unwrap hook -/

theorem init_w (g : gRW) : g.init.w = g.w := by
  unfold gRW.init
  repeat' split
  all_goals rfl

theorem WriteHeader_w (code : Nat) (g : gRW) :
    (gRW.WriteHeader code g).w = g.w := by
  unfold gRW.WriteHeader
  dsimp only
  split
  · exact init_w _
  · rfl

theorem Write_w (detect : List Nat → String) (b : List Nat) (g : gRW) :
    (gRW.Write detect b g).w = g.w := by
  unfold gRW.Write
  dsimp only
  repeat' split
  all_goals first
    | rfl
    | rw [WriteHeader_w]

theorem step_w (detect : List Nat → String) (g : gRW) (a : Act) :
    (gRW.step detect g a).w = g.w := by
  cases a with
  | writeHeader c => exact WriteHeader_w c g
  | write b => exact Write_w detect b g
  | flush => rw [gRW.step, Flush_eq]
  | setHdr k v => rfl
  | addHdr k v => rfl
  | delHdr k => rfl

theorem run_w (detect : List Nat → String) (acts : List Act) :
    ∀ g : gRW, (gRW.run detect g acts).w = g.w := by
  induction acts with
  | nil => intro g; rfl
  | cons a rest ih =>
    intro g
    rw [gRW.run, List.foldl_cons]
    rw [show List.foldl (gRW.step detect) (gRW.step detect g a) rest
        = gRW.run detect (gRW.step detect g a) rest from rfl, ih, step_w]

/-- Claim C6 (modelled from the spec, see `gRW.Unwrap`): for every request
routed through the decorator, the identity of the real underlying writer
is recoverable via the `Unwrap` hook — on the freshly built writer and
after any sequence of handler actions. -/
theorem C6_unwrap_recovers_underlying_writer :
    ∀ (w : Nat) (h : Header) (isF : Bool) (p : Pool)
      (detect : List Nat → String) (acts : List Act),
      (gRW.mk0 w h isF p).Unwrap = w
      ∧ (gRW.run detect (gRW.mk0 w h isF p) acts).Unwrap = w := by
  intro w h isF p detect acts
  refine ⟨rfl, ?_⟩
  unfold gRW.Unwrap
  rw [run_w]
  rfl

/-! ## Claim C7: compression-level validation -/

/-- Claim C7: configuring a level outside the codec's legal range
`[-2, 9]` faults at setup time (`WithLevel` panics, modelled as `none`);
every legal level yields a usable option carrying that level; and any pool
configured through `WithLevel` (or the `BestSpeed` default) constructs
writers at request time without fault. -/
theorem C7_with_level_setup_fault :
    (∀ level : Int, (level < gzipHuffmanOnly ∨ gzipBestCompression < level) →
      WithLevel level = none)
    ∧ (∀ level : Int, gzipHuffmanOnly ≤ level → level ≤ gzipBestCompression →
      WithLevel level = some level)
    ∧ (∀ level cfg : Int, WithLevel level = some cfg → poolNewWriter cfg = some 0)
    ∧ poolNewWriter gzipBestSpeed = some 0 := by
  refine ⟨?_, ?_, ?_, by decide⟩
  · intro l hl
    have hb : gzipNewWriterLevelErrors l = true := by
      unfold gzipNewWriterLevelErrors
      rcases hl with h | h <;> simp [h]
    simp [WithLevel, hb]
  · intro l h1 h2
    have hb : gzipNewWriterLevelErrors l = false := by
      unfold gzipNewWriterLevelErrors
      unfold gzipHuffmanOnly at h1
      unfold gzipBestCompression at h2
      simp only [gzipHuffmanOnly, gzipBestCompression, Bool.or_eq_false_iff,
        decide_eq_false_iff_not, not_lt]
      exact ⟨h1, h2⟩
    simp [WithLevel, hb]
  · intro l cfg hw
    unfold WithLevel at hw
    by_cases hb : gzipNewWriterLevelErrors l = true
    · simp [hb] at hw
    · simp only [Bool.not_eq_true] at hb
      simp only [hb, Bool.false_eq_true, if_false, Option.some.injEq] at hw
      subst hw
      simp [poolNewWriter, hb]

/-- Witness for C7: level `-3` (below `HuffmanOnly`) and level `10` (above
`BestCompression`) panic at setup; levels `-2` and `9` are accepted and
their pools construct writers without fault. -/
theorem C7_with_level_witness :
    (((-3 : Int) < gzipHuffmanOnly ∨ gzipBestCompression < (-3 : Int))
      ∧ WithLevel (-3) = none)
    ∧ ((gzipBestCompression < (10 : Int) ∨ (10 : Int) < gzipHuffmanOnly)
      ∧ WithLevel 10 = none)
    ∧ (gzipHuffmanOnly ≤ (-2 : Int) ∧ (-2 : Int) ≤ gzipBestCompression
      ∧ WithLevel (-2) = some (-2))
    ∧ (WithLevel 9 = some 9 ∧ poolNewWriter 9 = some 0) :=
  ⟨⟨Or.inl (by decide), C7_with_level_setup_fault.1 (-3) (Or.inl (by decide))⟩,
    ⟨Or.inl (by decide), C7_with_level_setup_fault.1 10 (Or.inr (by decide))⟩,
    ⟨by decide, by decide,
      C7_with_level_setup_fault.2.1 (-2) (by decide) (by decide)⟩,
    ⟨C7_with_level_setup_fault.2.1 9 (by decide) (by decide),
      C7_with_level_setup_fault.2.2.1 9 9
        (C7_with_level_setup_fault.2.1 9 (by decide) (by decide))⟩⟩

/-! ## Claim C5: implicit commit and sniffing order -/

theorem hGet_hSet_self (h : Header) (k v : String) : hGet (hSet h k v) k = v := by
  unfold hGet hSet
  rw [hGetAll, if_pos rfl]

/-- Claim C5: a first body write before any explicit commit synthesizes an
implicit 200 OK commit; if no Content-Type was set by then, one is sniffed
from the body's leading bytes and set before the skip predicate runs, so
the predicate sees the sniffed type; a handler-set Content-Type is never
overwritten. -/
theorem C5_sniff_then_implicit_200 :
    ∀ (detect : List Nat → String) (b : List Nat) (g : gRW),
      g.wroteHeader = false → g.decision = none →
      ((gRW.Write detect b g).decision
          = (if skipPredSpec (if hGet g.hdr hdrContentType = "" then
              hSet g.hdr hdrContentType (detect b) else g.hdr)
            then some false else some true))
      ∧ hGet (gRW.Write detect b g).hdr hdrContentType
          = (if hGet g.hdr hdrContentType = "" then detect b
            else hGet g.hdr hdrContentType)
      ∧ (gRW.Write detect b g).out
          = g.out ++ (if hGet g.hdr hdrContentType = "" then
                [Ev.sniffCT (detect b)] else [])
              ++ (if skipPredSpec (if hGet g.hdr hdrContentType = "" then
                    hSet g.hdr hdrContentType (detect b) else g.hdr)
                  then [] else [Ev.setCE, Ev.delCL])
              ++ [Ev.commit 200]
              ++ [if skipPredSpec (if hGet g.hdr hdrContentType = "" then
                    hSet g.hdr hdrContentType (detect b) else g.hdr)
                  then Ev.body else Ev.zbody] := by
  intro detect b g hw hd
  obtain ⟨hz, hsk⟩ := (decision_none_iff g).mp hd
  have hCLCT : hdrContentLength ≠ hdrContentType := by decide
  have hCECT : hdrContentEncoding ≠ hdrContentType := by decide
  rw [Write_fresh detect b g hw hz hsk]
  dsimp only
  by_cases hct : hGet g.hdr hdrContentType = ""
  · rw [if_pos hct]
    by_cases hsp : skipPredSpec (hSet g.hdr hdrContentType (detect b)) = true
    · rw [if_pos hsp]
      dsimp only
      refine ⟨?_, ?_, ?_⟩
      · simp [gRW.decision, hz, hsp]
      · rw [hGet_hSet_self]
        rw [if_pos hct]
      · rw [if_pos hct, if_pos hsp, if_pos hsp]
        simp [List.append_assoc]
    · rw [if_neg hsp]
      dsimp only
      refine ⟨?_, ?_, ?_⟩
      · simp [gRW.decision, hsp]
      · rw [hGet_hDel_ne _ _ _ hCLCT, hGet_hSet_ne _ _ _ _ hCECT, hGet_hSet_self]
        rw [if_pos hct]
      · rw [if_pos hct, if_neg hsp, if_neg hsp]
        simp [List.append_assoc]
  · rw [if_neg hct]
    by_cases hsp : skipPredSpec g.hdr = true
    · rw [if_pos hsp]
      dsimp only
      refine ⟨?_, ?_, ?_⟩
      · simp [gRW.decision, hz, hsp]
      · rw [if_neg hct]
      · rw [if_neg hct, if_pos hsp, if_pos hsp]
        simp [List.append_assoc]
    · rw [if_neg hsp]
      dsimp only
      refine ⟨?_, ?_, ?_⟩
      · simp [gRW.decision, hsp]
      · rw [hGet_hDel_ne _ _ _ hCLCT, hGet_hSet_ne _ _ _ _ hCECT]
        rw [if_neg hct]
      · rw [if_neg hct, if_neg hsp, if_neg hsp]
        simp [List.append_assoc]

/-- Witness for C5: the fresh writer over an empty header map, body
`[72]`, and sniffing returning `"text/plain"`: the write decides per the
predicate applied to the sniffed headers. -/
theorem C5_sniff_then_implicit_200_witness :
    (gRW.mk0 3 [] false ⟨[], 0⟩).wroteHeader = false
    ∧ (gRW.mk0 3 [] false ⟨[], 0⟩).decision = none
    ∧ (gRW.Write (fun _ => "text/plain") [72] (gRW.mk0 3 [] false ⟨[], 0⟩)).decision
        = (if skipPredSpec (if hGet ([] : Header) hdrContentType = "" then
              hSet ([] : Header) hdrContentType "text/plain" else ([] : Header))
          then some false else some true) :=
  ⟨rfl, rfl,
    (C5_sniff_then_implicit_200 (fun _ => "text/plain") [72]
      (gRW.mk0 3 [] false ⟨[], 0⟩) rfl rfl).1⟩

/-! ## Claim C4: 204/304/206 commits -/

/-- Counterexample to claim C4 as stated: the handler sets a compressible
`Content-Type`, commits 206, then writes body bytes.  The claim predicts
the skip predicate is "still evaluated at that first body write" (which
would decide — here: compressing, setting `Content-Encoding`), but the
writer stays undecided: the body byte is forwarded raw, the predicate is
never evaluated and no header is touched. -/
theorem C4_counterexample_206_write_undecided :
    (gRW.run (fun _ => "text/plain") (gRW.mk0 0 [] false ⟨[], 0⟩)
        [Act.setHdr hdrContentType "text/plain", Act.writeHeader 206,
          Act.write [104, 105]]).decision = none
    ∧ countBody (gRW.run (fun _ => "text/plain") (gRW.mk0 0 [] false ⟨[], 0⟩)
        [Act.setHdr hdrContentType "text/plain", Act.writeHeader 206,
          Act.write [104, 105]]).out = 1
    ∧ skipPredSpec (gRW.run (fun _ => "text/plain") (gRW.mk0 0 [] false ⟨[], 0⟩)
        [Act.setHdr hdrContentType "text/plain", Act.writeHeader 206,
          Act.write [104, 105]]).hdr = false
    ∧ hGet (gRW.run (fun _ => "text/plain") (gRW.mk0 0 [] false ⟨[], 0⟩)
        [Act.setHdr hdrContentType "text/plain", Act.writeHeader 206,
          Act.write [104, 105]]).hdr hdrContentEncoding = "" := by
  refine ⟨?_, ?_, ?_, ?_⟩ <;> decide

/-- Claim C4 (amended): committing 204, 304 or 206 while undecided makes no
decision and forwards the status code unchanged; but the decision is not
merely deferred to the first body write — a subsequent body write does not
evaluate the skip predicate at all: it forwards the bytes raw and leaves
the writer undecided. -/
theorem C4_special_codes_defer_without_reevaluation :
    (∀ (code : Nat) (g : gRW), g.decision = none →
      (code = 204 ∨ code = 304 ∨ code = 206) →
      gRW.WriteHeader code g
        = { g with wroteHeader := true, out := g.out ++ [Ev.commit code] })
    ∧ (∀ (detect : List Nat → String) (b : List Nat) (g : gRW),
        g.wroteHeader = true → g.decision = none →
        gRW.Write detect b g = { g with out := g.out ++ [Ev.body] }) := by
  constructor
  · intro code g _ hc
    exact WriteHeader_special code g hc
  · intro detect b g hw hd
    obtain ⟨hz, _⟩ := (decision_none_iff g).mp hd
    rw [Write_wroteHeader detect b g hw, if_pos (Or.inr hz)]

/-- Witness for the amended C4 at concrete states: a fresh writer committed
with 204 keeps its undecided state; the resulting committed-but-undecided
writer forwards a body write raw. -/
theorem C4_special_codes_witness :
    ((gRW.mk0 2 [] false ⟨[], 0⟩).decision = none
      ∧ gRW.WriteHeader 204 (gRW.mk0 2 [] false ⟨[], 0⟩)
          = { (gRW.mk0 2 [] false ⟨[], 0⟩) with
              wroteHeader := true,
              out := (gRW.mk0 2 [] false ⟨[], 0⟩).out ++ [Ev.commit 204] })
    ∧ (({ (gRW.mk0 2 [] false ⟨[], 0⟩) with wroteHeader := true } : gRW).wroteHeader
          = true
      ∧ ({ (gRW.mk0 2 [] false ⟨[], 0⟩) with wroteHeader := true } : gRW).decision
          = none
      ∧ gRW.Write (fun _ => "text/plain") [104]
            { (gRW.mk0 2 [] false ⟨[], 0⟩) with wroteHeader := true }
          = { ({ (gRW.mk0 2 [] false ⟨[], 0⟩) with wroteHeader := true } : gRW) with
              out := ({ (gRW.mk0 2 [] false ⟨[], 0⟩) with
                  wroteHeader := true } : gRW).out ++ [Ev.body] }) :=
  ⟨⟨rfl, C4_special_codes_defer_without_reevaluation.1 204 _ rfl (Or.inl rfl)⟩,
    ⟨rfl, rfl,
      C4_special_codes_defer_without_reevaluation.2 (fun _ => "text/plain")
        [104] _ rfl rfl⟩⟩

/-! ## Claim C3: one decision, mutations gated and ordered -/

/-- Claim C3: over any interaction of a handler with the writer (with at
most one explicit status commit, as the `http.ResponseWriter` contract
requires), at most one compress/skip decision is made and it never
reverts; the compression-signalling header mutations (set
`Content-Encoding: gzip`, remove `Content-Length`) happen exactly once if
the decision is compressing and never otherwise — in particular never on
the skipping path — and they precede every body byte forwarded to the
underlying writer. -/
theorem C3_single_decision_mutations_before_body :
    ∀ (detect : List Nat → String) (h0 : Header) (w : Nat) (isF : Bool)
      (p : Pool) (acts : List Act), countWH acts ≤ 1 →
      (∀ (pre suf : List Act) (d : Bool), acts = pre ++ suf →
          (gRW.run detect (gRW.mk0 w h0 isF p) pre).decision = some d →
          (gRW.run detect (gRW.mk0 w h0 isF p) acts).decision = some d)
      ∧ countCE (gRW.run detect (gRW.mk0 w h0 isF p) acts).out
          = (if (gRW.run detect (gRW.mk0 w h0 isF p) acts).decision = some true
            then 1 else 0)
      ∧ countDL (gRW.run detect (gRW.mk0 w h0 isF p) acts).out
          = (if (gRW.run detect (gRW.mk0 w h0 isF p) acts).decision = some true
            then 1 else 0)
      ∧ mutBeforeBody (gRW.run detect (gRW.mk0 w h0 isF p) acts).out = true := by
  intro detect h0 w isF p acts hwh
  have hinv0 : C3inv (gRW.mk0 w h0 isF p) := by
    refine ⟨rfl, rfl, rfl, ?_, fun _ => ⟨rfl, rfl, rfl⟩⟩
    intro h
    exact Bool.noConfusion h
  have hspF : ¬specialG (gRW.mk0 w h0 isF p) := fun hsp => Bool.noConfusion hsp.1
  have hrun := run_C3inv detect acts (gRW.mk0 w h0 isF p) hinv0 hwh
    (fun hsp => absurd hsp hspF)
  obtain ⟨hc1, hc2, hc3, -, -⟩ := hrun
  have hdz : ∀ g' : gRW, (if g'.z.isSome then 1 else 0)
      = (if g'.decision = some true then 1 else 0) := by
    intro g'
    unfold gRW.decision
    cases hz : g'.z.isSome
    · cases hsk : g'.skip <;> simp [hz, hsk]
    · simp [hz]
  refine ⟨?_, ?_, ?_, hc3⟩
  · intro pre suf d hsplit hpre
    rw [hsplit]
    rw [show gRW.run detect (gRW.mk0 w h0 isF p) (pre ++ suf)
        = gRW.run detect (gRW.run detect (gRW.mk0 w h0 isF p) pre) suf from
        List.foldl_append _ _ _ _]
    exact run_decision detect suf _ d hpre
  · rw [hc1, hdz]
  · rw [hc2, hdz]

/-- Witness for C3 at a concrete run: a single body write on a fresh
writer (zero explicit commits). -/
theorem C3_single_decision_witness :
    countWH [Act.write [104]] ≤ 1
    ∧ ((∀ (pre suf : List Act) (d : Bool), [Act.write [104]] = pre ++ suf →
          (gRW.run (fun _ => "text/plain") (gRW.mk0 0 [] false ⟨[], 0⟩)
            pre).decision = some d →
          (gRW.run (fun _ => "text/plain") (gRW.mk0 0 [] false ⟨[], 0⟩)
            [Act.write [104]]).decision = some d)
      ∧ countCE (gRW.run (fun _ => "text/plain") (gRW.mk0 0 [] false ⟨[], 0⟩)
            [Act.write [104]]).out
          = (if (gRW.run (fun _ => "text/plain") (gRW.mk0 0 [] false ⟨[], 0⟩)
                [Act.write [104]]).decision = some true then 1 else 0)
      ∧ countDL (gRW.run (fun _ => "text/plain") (gRW.mk0 0 [] false ⟨[], 0⟩)
            [Act.write [104]]).out
          = (if (gRW.run (fun _ => "text/plain") (gRW.mk0 0 [] false ⟨[], 0⟩)
                [Act.write [104]]).decision = some true then 1 else 0)
      ∧ mutBeforeBody (gRW.run (fun _ => "text/plain")
            (gRW.mk0 0 [] false ⟨[], 0⟩) [Act.write [104]]).out = true) :=
  ⟨by decide,
    C3_single_decision_mutations_before_body (fun _ => "text/plain") [] 0 false
      ⟨[], 0⟩ [Act.write [104]] (by decide)⟩
